import Mathlib

/-
Verification of the cartcompare repository (superstore.py, walmart2.py,
integrate_scrapers.py).

Shallow embedding conventions:
- Python strings are lists of characters (`Str`); `str.lower`/`str.upper`
  are ASCII case maps, matching the ASCII data handled by the scrapers.
- Python floats are modelled as exact rationals; `round(x, 4)` is rounding
  to four decimal places with ties to even, as Python's `round` does.
- JSON-like product nodes are the inductive `JVal`; dicts are association
  lists looked up by first key occurrence, `dict.get` returns an `Option`.
- Python truthiness, `is True` tests, and `a or b` short-circuiting are
  modelled explicitly (`pyTruthy`, `isTrueJ`, `pyOr`).
- `list.sort(key=...)` (a stable sort by an ascending key) is modelled by
  stable insertion sort (`sortB`) with the same key.
-/

abbrev Str := List Char

def isDigitC (c : Char) : Bool := c.isDigit

/-- Python's regex `\s` also matches `\f`/`\v`; the scrapers only see the
four common whitespace characters covered here. -/
def isWSC (c : Char) : Bool := c.isWhitespace

def isAlphaC (c : Char) : Bool := c.isAlpha

def lowerL (s : Str) : Str := s.map Char.toLower

def upperL (s : Str) : Str := s.map Char.toUpper

/-- Python `str.strip()`. -/
def trimWS (s : Str) : Str := ((s.dropWhile isWSC).reverse.dropWhile isWSC).reverse

/-- Does the second list start with the first? -/
def hasLead : Str → Str → Bool
  | [], _ => true
  | _ :: _, [] => false
  | c :: cs, h :: hs => (c == h) && hasLead cs hs

/-- Python `needle in hay` (substring containment). -/
def hasSub (needle : Str) : Str → Bool
  | [] => needle.isEmpty
  | h :: hs => hasLead needle (h :: hs) || hasSub needle hs

/-- Case-insensitive version of `hasLead` (for `re.IGNORECASE`). -/
def ciLead : Str → Str → Bool
  | [], _ => true
  | _ :: _, [] => false
  | c :: cs, h :: hs => (c.toLower == h.toLower) && ciLead cs hs

def splitWSAux : Str → Str → List Str
  | acc, [] => if acc.isEmpty then [] else [acc.reverse]
  | acc, c :: cs =>
    if isWSC c then
      if acc.isEmpty then splitWSAux [] cs else acc.reverse :: splitWSAux [] cs
    else splitWSAux (c :: acc) cs

/-- Python `str.split()` with no argument: split on whitespace runs. -/
def splitWS (s : Str) : List Str := splitWSAux [] s

/-- Python `text.replace("%", "% ")`. -/
def expandPct (s : Str) : Str :=
  s.foldr (fun c acc => if c = '%' then '%' :: ' ' :: acc else c :: acc) []

def natOfDigits (s : Str) : ℕ := s.foldl (fun a c => 10 * a + (c.toNat - 48)) 0

/-- Value of `float("<ip>.<fp>")` for digit strings `ip` and `fp`. -/
def ratOfParts (ip fp : Str) : ℚ :=
  (natOfDigits ip : ℚ) + (natOfDigits fp : ℚ) / (10 ^ fp.length)

/-- Python `float()` on a string made only of digits and dots
(the shape left by `_strip_currency`); `None` when parsing fails. -/
def pyFloatOfDigits (s : Str) : Option ℚ :=
  let ip := s.takeWhile isDigitC
  match s.drop ip.length with
  | [] => if ip.isEmpty then none else some (natOfDigits ip)
  | '.' :: fp =>
    if fp.all isDigitC && !(ip.isEmpty && fp.isEmpty) then some (ratOfParts ip fp)
    else none
  | _ => none

/-- superstore.py `_strip_currency`: keep `[0-9.,]`, drop the commas,
then parse as a float. -/
def stripCurrency (s : Str) : Option ℚ :=
  pyFloatOfDigits (s.filter (fun c => isDigitC c || c = '.'))

/-- JSON-like values of the embedded data documents. -/
inductive JVal where
  | jnull
  | jbool (b : Bool)
  | jnum (q : ℚ)
  | jstr (s : Str)
  | jarr (xs : List JVal)
  | jobj (fields : List (Str × JVal))

abbrev JObj := List (Str × JVal)

/-- Association-list lookup by first matching key (Python dict access). -/
def lookupA {β : Type} : List (Str × β) → Str → Option β
  | [], _ => none
  | (k, v) :: rest, key => if k = key then some v else lookupA rest key

/-- Python `item.get(k)`. -/
def jGet (item : JObj) (k : Str) : Option JVal := lookupA item k

/-- Python truthiness of a possibly-missing value. -/
def pyTruthy : Option JVal → Bool
  | none => false
  | some .jnull => false
  | some (.jbool b) => b
  | some (.jnum q) => decide (q ≠ 0)
  | some (.jstr s) => !s.isEmpty
  | some (.jarr xs) => !xs.isEmpty
  | some (.jobj fs) => !fs.isEmpty

/-- Python `a or b`. -/
def pyOr (a b : Option JVal) : Option JVal := if pyTruthy a then a else b

/-- Python `v is True`. -/
def isTrueJ : Option JVal → Bool
  | some (.jbool true) => true
  | _ => false

theorem lookupA_sizeOf {fs : JObj} {k : Str} {v : JVal} (h : lookupA fs k = some v) :
    sizeOf v < sizeOf fs := by
  induction fs with
  | nil => simp [lookupA] at h
  | cons hd tl ih =>
    obtain ⟨k2, v2⟩ := hd
    rw [lookupA] at h
    split at h
    · cases h
      simp only [List.cons.sizeOf_spec, Prod.mk.sizeOf_spec]
      omega
    · have := ih h
      simp only [List.cons.sizeOf_spec]
      omega

/-! ### superstore.py -/

def normPriceKeyList : List Str :=
  ["sale", "current", "list", "regular", "price", "amount", "value",
   "priceValue"].map (fun s => s.toList)

mutual

/-- superstore.py `_normalize_price`.  Note `isinstance(True, int)` holds in
Python, so booleans normalize to 1.0/0.0. -/
def normPrice : JVal → Option ℚ
  | .jnull => none
  | .jbool b => some (if b then 1 else 0)
  | .jnum q => some q
  | .jstr s => stripCurrency s
  | .jarr _ => none
  | .jobj fs => normPriceKeys normPriceKeyList fs
  termination_by v => (sizeOf v, 0)
  decreasing_by
    simp_wf
    exact Prod.Lex.left _ _ (by simp)

/-- The key loop of `_normalize_price` on a dict value: first key whose
value normalizes to a non-`None` price wins. -/
def normPriceKeys : List Str → JObj → Option ℚ
  | [], _ => none
  | k :: ks, fs =>
    match h : lookupA fs k with
    | some v =>
      match normPrice v with
      | some q => some q
      | none => normPriceKeys ks fs
    | none => normPriceKeys ks fs
  termination_by ks fs => (sizeOf fs, ks.length)
  decreasing_by
    · simp_wf
      exact Prod.Lex.left _ _ (lookupA_sizeOf h)
    · simp_wf
      exact Prod.Lex.right _ (by omega)
    · simp_wf
      exact Prod.Lex.right _ (by omega)

end

/-- superstore.py `_extract_unit_price`: a string is stripped and returned;
on a dict, the first of the listed keys holding a string wins. -/
def extractUnitPriceS (v : Option JVal) : Option Str :=
  match v with
  | some (.jstr s) => some (trimWS s)
  | some (.jobj fs) =>
    (["unitPrice", "unit", "pricePerUnit", "comparisonPrice"].map
        (fun s => s.toList)).findSome? (fun k =>
      match lookupA fs k with
      | some (.jstr inner) => some (trimWS inner)
      | _ => none)
  | _ => none

def pricingKeyList : List Str :=
  ["price", "current", "regular", "sale", "list", "value",
   "priceValue"].map (fun s => s.toList)

/-- The key loop of `_extract_price_fields` over the pricing dict: keys are
tried in order while the price is still `None`. -/
def priceFromPricing (fs : JObj) : Option ℚ :=
  pricingKeyList.foldl (fun acc k =>
    match acc with
    | some p => some p
    | none =>
      match lookupA fs k with
      | some v => normPrice v
      | none => none) none

/-- superstore.py `_extract_price_fields` (price and unit-price text). -/
def extractPriceFieldsS (item : JObj) : Option ℚ × Option Str :=
  let pricing := pyOr (pyOr (jGet item ("pricing".toList)) (jGet item ("price".toList)))
    (jGet item ("prices".toList))
  let price0 : Option ℚ :=
    match pricing with
    | some (.jobj fs) => priceFromPricing fs
    | _ => none
  let unit0 : Option Str :=
    match pricing with
    | some (.jobj fs) => extractUnitPriceS (some (.jobj fs))
    | _ => none
  let price1 : Option ℚ :=
    match price0 with
    | some p => some p
    | none =>
      match jGet item ("price".toList) with
      | some v => normPrice v
      | none => none
  let price2 : Option ℚ :=
    match price1 with
    | some p => some p
    | none =>
      match jGet item ("regularPrice".toList) with
      | some v => normPrice v
      | none => none
  let unit1 : Option Str :=
    match unit0 with
    | some u => some u
    | none => extractUnitPriceS (some (.jobj item))
  (price2, unit1)

def sInStockKws : List Str :=
  ["in stock", "available", "add to cart", "available online"].map (fun s => s.toList)

def sNegStatusVocab : List Str :=
  ["OUT_OF_STOCK", "SOLD_OUT", "UNAVAILABLE"].map (fun s => s.toList)

/-- The first rule of superstore.py `_is_available`: one of four fields is a
string containing an in-stock keyword (a plain substring test, so it also
fires on the `available` inside `unavailable`). -/
def sPosText (item : JObj) : Bool :=
  (["availabilityStatus", "availability", "availabilityMessage",
    "availabilityText"].map (fun s => s.toList)).any (fun k =>
    match jGet item k with
    | some (.jstr s) => sInStockKws.any (fun kw => hasSub kw (lowerL s))
    | _ => false)

/-- The second rule of superstore.py `_is_available`: a boolean flag `is True`. -/
def sPosFlags (item : JObj) : Bool :=
  (["isAvailable", "available", "buyable", "canAddToCart"].map
    (fun s => s.toList)).any (fun k => isTrueJ (jGet item k))

/-- Is the `availabilityStatus` value a string whose upper-casing is in the
out-of-stock vocabulary? -/
def sStatusNeg (item : JObj) : Bool :=
  match jGet item ("availabilityStatus".toList) with
  | some (.jstr s) => decide (upperL s ∈ sNegStatusVocab)
  | _ => false

/-- superstore.py `_is_available`. -/
def sIsAvailable (item : JObj) : Bool :=
  if sPosText item then true
  else if sPosFlags item then true
  else
    let price := (extractPriceFieldsS item).1
    if price.isSome && !sStatusNeg item then true else false

/-! Quantity extraction (walmart2.py and superstore.py `_extract_quantity`).

The regex `(\d+\s*(?:U1|U2|...))` with `re.IGNORECASE` is searched over the
name.  A match can only start at a digit; the digit run and whitespace run
are consumed greedily (backtracking them cannot help, because the unit
alternatives all start with letters), then the first alternative that is a
case-insensitive prefix of the remainder is taken, in the listed order. -/

def qtyFieldKeys : List Str :=
  ["packageSizing", "size", "quantity", "format", "packaging", "unitQuantity",
   "volumePrice"].map (fun s => s.toList)

/-- `if val and isinstance(val, str) and val.strip(): return val.strip()`. -/
def qtyFieldVal : Option JVal → Option Str
  | some (.jstr s) =>
    if !s.isEmpty && !(trimWS s).isEmpty then some (trimWS s) else none
  | _ => none

def qtyFromFields (item : JObj) : Option Str :=
  qtyFieldKeys.findSome? (fun k => qtyFieldVal (jGet item k))

/-- One attempted match of the quantity pattern at the head of `s`. -/
def matchQtyAt (alts : List Str) (s : Str) : Option Str :=
  let ds := s.takeWhile isDigitC
  if ds.isEmpty then none
  else
    let r1 := (s.drop ds.length)
    let ws := r1.takeWhile isWSC
    let r2 := r1.drop ws.length
    match alts.find? (fun a => ciLead a r2) with
    | some a => some (ds ++ ws ++ r2.take a.length)
    | none => none

/-- `re.search` of the quantity pattern: leftmost successful match wins,
`group(1)` is returned. -/
def searchQty (alts : List Str) : Str → Option Str
  | [] => none
  | c :: cs =>
    match matchQtyAt alts (c :: cs) with
    | some r => some r
    | none => searchQty alts cs

def wQtyAlts : List Str :=
  ["L", "ML", "g", "kg", "oz", "lb", "pack", "count", "piece"].map
    (fun s => s.toList)

def sQtyAlts : List Str :=
  ["L", "ML", "g", "kg", "oz", "lb", "pack", "count", "piece", "ct"].map
    (fun s => s.toList)

/-- walmart2.py `_extract_quantity`; `item.get("name", "")` with a
non-string value would make `re.search` raise, which cannot happen for the
extracted `Product` nodes, so non-strings are modelled as no match. -/
def wExtractQuantity (item : JObj) : Option Str :=
  match qtyFromFields item with
  | some v => some v
  | none =>
    let name : Str :=
      match jGet item ("name".toList) with
      | some (.jstr s) => s
      | _ => []
    if name.isEmpty then none else searchQty wQtyAlts name

/-- superstore.py `_extract_quantity` (name falls back to `title` then
`name`, and the unit vocabulary also has `ct`). -/
def sExtractQuantity (item : JObj) : Option Str :=
  match qtyFromFields item with
  | some v => some v
  | none =>
    let name : Str :=
      match pyOr (jGet item ("title".toList)) (jGet item ("name".toList)) with
      | some (.jstr s) => s
      | _ => []
    if name.isEmpty then none else searchQty sQtyAlts name

/-! ### walmart2.py availability cascade -/

def wInStockVocab : List Str :=
  ["IN_STOCK", "INSTOCK", "AVAILABLE", "IN_STORE", "IN_STORE_ONLY"].map
    (fun s => s.toList)

def wOutVocab : List Str :=
  ["OUT_OF_STOCK", "SOLD_OUT", "UNAVAILABLE", "COMING_SOON"].map
    (fun s => s.toList)

def wOfferVocabDict : List Str :=
  ["IN_STOCK", "INSTOCK", "AVAILABLE", "IN_STOCK_ONLINE"].map (fun s => s.toList)

def wOfferVocabList : List Str :=
  ["IN_STOCK", "INSTOCK", "AVAILABLE"].map (fun s => s.toList)

/-- Rule 1 of `_extract_availability`: `item.get("isOutOfStock") is True`. -/
def wOutFlagSet (item : JObj) : Bool := isTrueJ (jGet item ("isOutOfStock".toList))

/-- Rule 2: explicit add-to-cart / buy flags. -/
def wAtcFlags (item : JObj) : Bool :=
  isTrueJ (jGet item ("canAddToCart".toList)) ||
  isTrueJ (jGet item ("showAtc".toList)) ||
  isTrueJ (jGet item ("showBuyNow".toList))

/-- The `availabilityStatus` value when it is a string. -/
def wStatusStr (item : JObj) : Option Str :=
  match jGet item ("availabilityStatus".toList) with
  | some (.jstr s) => some s
  | _ => none

/-- Rule 3a: a status string in the in-stock vocabulary. -/
def wStatusPos (item : JObj) : Bool :=
  match wStatusStr item with
  | some s => decide (upperL s ∈ wInStockVocab)
  | none => false

/-- Rule 3b: `isInStock is True or isAvailable is True`. -/
def wStockFlags (item : JObj) : Bool :=
  isTrueJ (jGet item ("isInStock".toList)) ||
  isTrueJ (jGet item ("isAvailable".toList))

/-- One inventory-count value is positive (`isinstance(v, (int, float))`
also covers Python booleans; digit strings are parsed). -/
def invPosVal : Option JVal → Bool
  | some (.jnum q) => decide (0 < q)
  | some (.jbool b) => b
  | some (.jstr s) => !s.isEmpty && s.all isDigitC && decide (0 < natOfDigits s)
  | _ => false

/-- Rule 4: positive inventory counts. -/
def wInvPos (item : JObj) : Bool :=
  match pyOr (pyOr (jGet item ("inventory".toList)) (jGet item ("inventoryInfo".toList)))
      (jGet item ("inStoreAvailability".toList)) with
  | some (.jobj fs) =>
    (["availableQuantity", "quantity", "stock", "available"].map
      (fun s => s.toList)).any (fun k => invPosVal (lookupA fs k))
  | _ => false

def offerAvVal (fs : JObj) : Option JVal :=
  pyOr (lookupA fs ("availability".toList)) (lookupA fs ("availabilityStatus".toList))

/-- Rule 5a: offers (dict, or first element of a non-empty list). -/
def wOffersPos (item : JObj) : Bool :=
  match pyOr (jGet item ("offers".toList)) (jGet item ("offer".toList)) with
  | some (.jobj fs) =>
    (match offerAvVal fs with
     | some (.jstr s) => decide (upperL s ∈ wOfferVocabDict)
     | _ => false) || isTrueJ (lookupA fs ("isAvailable".toList))
  | some (.jarr (first :: _)) =>
    match first with
    | .jobj fs =>
      (match offerAvVal fs with
       | some (.jstr s) => decide (upperL s ∈ wOfferVocabList)
       | _ => false) || isTrueJ (lookupA fs ("isAvailable".toList))
    | _ => false
  | _ => false

/-- Rule 5b: fulfillment sub-objects. -/
def wFulfilPos (item : JObj) : Bool :=
  match pyOr (pyOr (jGet item ("fulfillment".toList)) (jGet item ("fulfillmentInfo".toList)))
      (jGet item ("fulfillmentOptions".toList)) with
  | some (.jobj fs) =>
    isTrueJ (lookupA fs ("isAvailable".toList)) ||
    isTrueJ (lookupA fs ("isFulfillable".toList))
  | _ => false

/-- Rule 6: a free-text availability message with an in-stock phrase. -/
def wMsgPos (item : JObj) : Bool :=
  match pyOr (pyOr (jGet item ("availabilityMessage".toList))
      (jGet item ("availabilityText".toList))) (jGet item ("availability".toList)) with
  | some (.jstr s) => sInStockKws.any (fun kw => hasSub kw (lowerL s))
  | _ => false

/-- Rule 7 guard: `item.get("priceInfo") or item.get("price") or item.get("offers")`. -/
def wHasPriceSignal (item : JObj) : Bool :=
  pyTruthy (jGet item ("priceInfo".toList)) ||
  pyTruthy (jGet item ("price".toList)) ||
  pyTruthy (jGet item ("offers".toList))

/-- Rule 7 blocker: status string in the out-of-stock vocabulary. -/
def wStatusNeg (item : JObj) : Bool :=
  match wStatusStr item with
  | some s => decide (upperL s ∈ wOutVocab)
  | none => false

/-- walmart2.py `_extract_availability`: the rules above, in source order. -/
def wExtractAvailability (item : JObj) : Bool :=
  if wOutFlagSet item then false
  else if wAtcFlags item then true
  else if wStatusPos item then true
  else if wStockFlags item then true
  else if wInvPos item then true
  else if wOffersPos item then true
  else if wFulfilPos item then true
  else if wMsgPos item then true
  else if wHasPriceSignal item && !wStatusNeg item then true
  else false

/-! ### Acquisition polling loops -/

inductive PollAction where
  | waitBlocked
  | extract
  | waitShort
deriving DecidableEq

def wBlockPhrases : List Str :=
  ["press & hold", "verify you are human", "robot or human",
   "access to this page has been denied", "unusual traffic from your computer",
   "we detected unusual traffic"].map (fun s => s.toList)

def sBlockPhrases : List Str :=
  ["verify you are human", "press & hold",
   "access to this page has been denied", "unusual traffic"].map (fun s => s.toList)

def isBlockedW (content : Str) : Bool :=
  wBlockPhrases.any (fun ph => hasSub ph (lowerL content))

def isBlockedS (content : Str) : Bool :=
  sBlockPhrases.any (fun ph => hasSub ph (lowerL content))

/-- One iteration of the walmart2.py captcha-detection loop:
`if is_blocked and not has_data: wait; elif has_data: break; else: short wait`. -/
def pollStepW (content : Str) (hasData : Bool) : PollAction :=
  if isBlockedW content && !hasData then .waitBlocked
  else if hasData then .extract
  else .waitShort

/-- One iteration of the superstore.py captcha-detection loop (same shape). -/
def pollStepS (content : Str) (hasData : Bool) : PollAction :=
  if isBlockedS content && !hasData then .waitBlocked
  else if hasData then .extract
  else .waitShort

/-- The bounded polling loop: run `step` on the page states of `trace`
starting at attempt `i` with the given attempt budget; `some j` means the
loop broke out to extraction at attempt `j`. -/
def pollExit (step : Str → Bool → PollAction) (trace : ℕ → Str × Bool) :
    ℕ → ℕ → Option ℕ
  | 0, _ => none
  | fuel + 1, i =>
    match step (trace i).1 (trace i).2 with
    | .extract => some i
    | _ => pollExit step trace fuel (i + 1)

/-! ### integrate_scrapers.py -/

def UNIT_CONVERSIONS : List (Str × ℚ) :=
  [("ml".toList, 1), ("l".toList, 1000), ("L".toList, 1000),
   ("oz".toList, 295735 / 10000), ("fl oz".toList, 295735 / 10000),
   ("g".toList, 1), ("kg".toList, 1000), ("lb".toList, 453592 / 1000),
   ("lbs".toList, 453592 / 1000), ("ea".toList, 1), ("count".toList, 1),
   ("ct".toList, 1), ("piece".toList, 1), ("roll".toList, 1),
   ("rolls".toList, 1)]

/-- `unit_lower in UNIT_CONVERSIONS` / `UNIT_CONVERSIONS[unit_lower]`. -/
def lookupConv (u : Str) : Option ℚ := lookupA UNIT_CONVERSIONS u

/-- The fuzzy-match loop: first table key `k` with
`k in unit_lower or unit_lower in k`, in insertion order. -/
def fuzzyKey (u : Str) : Option Str :=
  (UNIT_CONVERSIONS.find? (fun kv => hasSub kv.1 u || hasSub u kv.1)).map
    (fun kv => kv.1)

/-- Python `round(x, 4)` on exact rationals: round to a multiple of
`1/10^4`, ties to even. -/
def roundTiesEven (x : ℚ) : ℤ :=
  if x - (⌊x⌋ : ℚ) < 1 / 2 then ⌊x⌋
  else if 1 / 2 < x - (⌊x⌋ : ℚ) then ⌊x⌋ + 1
  else if ⌊x⌋ % 2 = 0 then ⌊x⌋ else ⌊x⌋ + 1

def round4 (x : ℚ) : ℚ := (roundTiesEven (x * 10000) : ℚ) / 10000

/-- Greedy parse of the regex piece `\d+\.?\d*` (with its value as a
rational) and the remaining text.  Committing to the maximal digit runs is
sound here because every continuation of this piece in the two quantity
patterns rejects digits and dots. -/
def numTok (s : Str) : Option (ℚ × Str) :=
  let d1 := s.takeWhile isDigitC
  if d1.isEmpty then none
  else
    match s.drop d1.length with
    | '.' :: r2 =>
      let d2 := r2.takeWhile isDigitC
      some (ratOfParts d1 d2, r2.drop d2.length)
    | r1 => some (ratOfParts d1 [], r1)

def isUnitClassC (c : Char) : Bool := isAlphaC c || isWSC c

/-- One attempted match of `\$(\d+\.?\d*)/(\d+\.?\d*)\s*([a-zA-Z\s]+)`
starting at `s`; yields the parsed groups `(price, per_amount,
group(3).strip())`. -/
def matchExplicitAt (s : Str) : Option (ℚ × ℚ × Str) :=
  match s with
  | '$' :: t =>
    match numTok t with
    | some (p, '/' :: r2) =>
      match numTok r2 with
      | some (a, r3) =>
        let run := r3.takeWhile isUnitClassC
        if run.isEmpty then none else some (p, a, trimWS run)
      | none => none
    | _ => none
  | _ => none

/-- `re.search` for the explicit unit-price pattern (leftmost match). -/
def searchExplicit : Str → Option (ℚ × ℚ × Str)
  | [] => none
  | c :: cs =>
    match matchExplicitAt (c :: cs) with
    | some r => some r
    | none => searchExplicit cs

/-- integrate_scrapers.py `_extract_explicit_unit_price`. -/
def extractExplicitUnitPrice : Option Str → Option (ℚ × Str)
  | none => none
  | some s =>
    if s.isEmpty then none
    else
      match searchExplicit (lowerL s) with
      | some (p, a, u) => if 0 < a then some (p / a, u) else none
      | none => none

/-- Continuation `(?:\s*,|$)` of the quantity-and-unit pattern. -/
def qtyUnitStop (t : Str) : Bool :=
  match t.dropWhile isWSC with
  | ',' :: _ => true
  | _ => t.isEmpty

/-- Lazy scan for the non-greedy `([a-zA-Z\s]+?)` group: shortest non-empty
run of class characters whose continuation matches `(?:\s*,|$)`. -/
def lazyUnitScan (acc : Str) : Str → Option Str
  | [] => none
  | c :: cs =>
    if isUnitClassC c then
      if qtyUnitStop cs then some ((c :: acc).reverse) else lazyUnitScan (c :: acc) cs
    else none

/-- One attempted match of `(\d+\.?\d*)\s*([a-zA-Z\s]+?)(?:\s*,|$)`. -/
def matchQtyUnitAt (s : Str) : Option (ℚ × Str) :=
  match numTok s with
  | some (amt, r1) =>
    let ws := r1.takeWhile isWSC
    let r2 := r1.drop ws.length
    match r2 with
    | [] =>
      -- only whitespace remains: backtracking `\s*` lets the lazy group
      -- take a whitespace character, which strips to the empty unit
      if ws.isEmpty then none else some (amt, [])
    | c :: _ =>
      if isUnitClassC c then
        match lazyUnitScan [] r2 with
        | some g2 => some (amt, lowerL (trimWS g2))
        | none => none
      else if c = ',' && !ws.isEmpty then some (amt, [])
      else none
  | none => none

def searchQtyUnit : Str → Option (ℚ × Str)
  | [] => none
  | c :: cs =>
    match matchQtyUnitAt (c :: cs) with
    | some r => some r
    | none => searchQtyUnit cs

/-- integrate_scrapers.py `_parse_quantity_and_unit`. -/
def parseQuantityAndUnit : Option Str → Option (ℚ × Str)
  | none => none
  | some s => if s.isEmpty then none else searchQtyUnit (trimWS s)

/-- One entry of a record's `unit_prices` list.  The f-string `per` labels
of the source are modelled structurally: `perAmt`/`perUnit` stand for
`f"{amount}{unit}"` (`perAmt = none` on the explicit path, whose label is
just the unit text); `normalized_per` stores the unit of `f"1{unit_lower}"`. -/
structure UnitPriceEntry where
  amount : ℚ
  perAmt : Option ℚ
  perUnit : Str
  normalized_amount : Option ℚ
  normalized_per : Option Str
  base_unit : Option Str
deriving DecidableEq

/-- integrate_scrapers.py `_calculate_unit_price`.  `not total_price` is
Python-falsy for `0.0`, hence the explicit zero test. -/
def calculateUnitPrice (total_price : Option ℚ) (qt : Option (ℚ × Str)) :
    Option UnitPriceEntry :=
  match total_price, qt with
  | some p, some (amount, unit) =>
    if p = 0 then none
    else if amount ≤ 0 then none
    else
      let ul := lowerL unit
      match lookupConv ul with
      | some conv =>
        let tb := amount * conv
        if 0 < tb then
          some ⟨round4 (p / amount), some amount, unit, some (round4 (p / tb)),
            some ul, some ul⟩
        else none
      | none =>
        match fuzzyKey ul with
        | some key =>
          -- the fuzzy loop replaces unit_lower by the matched table key
          match lookupConv key with
          | some conv =>
            let tb := amount * conv
            if 0 < tb then
              some ⟨round4 (p / amount), some amount, unit, some (round4 (p / tb)),
                some key, some key⟩
            else none
          | none => none -- unreachable: fuzzyKey only returns table keys
        | none =>
          -- unknown unit: count-based price, no normalized amount
          some ⟨round4 (p / amount), some 1, unit, none, none, some ul⟩
  | _, _ => none

/-- `PRODUCT_TYPE_KEYWORDS`: the alternation regexes are lists of literal
words, matched by substring search. -/
def PRODUCT_TYPE_KEYWORDS : List (List Str × Str × Str) :=
  [((["milk", "juice", "beverage", "drink", "liquid", "water", "coffee", "tea",
      "soda"].map (fun s => s.toList)), ("volume".toList, "100ml".toList)),
   ((["meat", "turkey", "chicken", "beef", "pork", "deli", "ham", "bacon",
      "sausage", "fish"].map (fun s => s.toList)), ("weight".toList, "100g".toList)),
   ((["apple", "orange", "banana", "fruit", "produce", "vegetable"].map
      (fun s => s.toList)), ("weight".toList, "lb".toList)),
   ((["bread", "baked", "cake", "cookie", "donut"].map (fun s => s.toList)),
      ("weight".toList, "100g".toList)),
   ((["egg", "eggs"].map (fun s => s.toList)), ("count".toList, "1ea".toList)),
   ((["paper", "tissue", "toilet", "towel", "napkin"].map (fun s => s.toList)),
      ("count".toList, "1roll".toList)),
   ((["cereal", "pasta", "rice", "grain", "flour"].map (fun s => s.toList)),
      ("weight".toList, "100g".toList))]

/-- integrate_scrapers.py `_detect_product_type`. -/
def detectProductType (name : Str) : Str :=
  let nl := lowerL name
  match PRODUCT_TYPE_KEYWORDS.find? (fun e => e.1.any (fun w => hasSub w nl)) with
  | some e => e.2.1
  | none => "unknown".toList

/-- integrate_scrapers.py `_get_best_display_unit`. -/
def bestDisplayUnit (pt : Str) : Str :=
  match PRODUCT_TYPE_KEYWORDS.find? (fun e => e.2.1 = pt) with
  | some e => e.2.2
  | none => "1unit".toList

/-- The `unit_price_display` strings, kept structurally as the number that
is formatted and the label after the slash. -/
structure UPDisplay where
  amt : ℚ
  perAmt : Option ℚ
  perUnit : Str
deriving DecidableEq

/-- A record as produced by both scrapers' extraction loops. -/
structure Item where
  name : Option Str
  price : Option ℚ
  unit_price : Option Str
  quantity : Option Str
  available : Bool
deriving DecidableEq

/-- An item together with the fields `_enrich_unit_prices` may add.
`item.copy()` plus adding only new keys is modelled by carrying the
original record unchanged in `item`. -/
structure Enriched where
  item : Item
  unit_prices : Option (List UnitPriceEntry)
  unit_price_display : Option UPDisplay
deriving DecidableEq

/-- The display-formatting block of `_enrich_unit_prices` for a computed
`calc` entry, given the record's name string (`_detect_product_type` is
only reached when the name value is an actual string; a `None` name makes
it raise first, see `enrichUnitPrices`). -/
def displayFor (nm : Str) (cal : UnitPriceEntry) : UPDisplay :=
  match cal.normalized_amount with
  | some base =>
    let du := bestDisplayUnit (detectProductType nm)
    if hasSub ("100ml".toList) du || hasSub ("100g".toList) du then
      ⟨base * 100, none, du⟩
    else if hasSub ("lb".toList) du then
      if cal.base_unit = some ("g".toList) then ⟨base * (453592 / 1000), none, du⟩
      else ⟨base, none, du⟩
    else if hasSub ("1ea".toList) du || hasSub ("1roll".toList) du then
      ⟨base, none, du⟩
    else ⟨base, none, ("unit".toList)⟩
  | none => ⟨cal.amount, cal.perAmt, cal.perUnit⟩

/-- integrate_scrapers.py `_enrich_unit_prices`.  The result is `none` when
the Python function raises: on the computed-unit-price branch it calls
`_detect_product_type(item_copy.get("name", ""))`, and both scrapers emit
records whose `name` key is present but may hold `None`, on which
`.lower()` raises `AttributeError`.  (`Item.name = none` models that
`None` value.) -/
def enrichUnitPrices (it : Item) : Option Enriched :=
  match extractExplicitUnitPrice it.quantity with
  | some (ep, eu) =>
    some { item := it
           unit_prices := some [⟨ep, none, eu, none, none, none⟩]
           unit_price_display := some ⟨ep, none, eu⟩ }
  | none =>
    match parseQuantityAndUnit it.quantity, it.price with
    | some qt, some p =>
      match calculateUnitPrice (some p) (some qt) with
      | some cal =>
        match it.name with
        | none => none -- AttributeError in _detect_product_type
        | some nm =>
          some { item := it
                 unit_prices := some [cal]
                 unit_price_display := some (displayFor nm cal) }
      | none => some { item := it, unit_prices := none, unit_price_display := none }
    | _, _ => some { item := it, unit_prices := none, unit_price_display := none }

/-! ### Relevance filtering and ranking -/

def NEGATIVE_TERMS : List Str :=
  ["toy", "easter", "decor", "costume", "gift card", "giftcard", "digital",
   "ebook", "ornament"].map (fun s => s.toList)

/-- integrate_scrapers.py `_tokenize` (a set of tokens: duplicates removed). -/
def tokenize (text : Str) : List Str :=
  (splitWS (expandPct (lowerL text))).dedup

/-- `f"{name} {quantity} {unit_price}".lower()` with `or ""` defaults. -/
def combinedText (it : Item) : Str :=
  lowerL (it.name.getD [] ++ [' '] ++ it.quantity.getD [] ++ [' '] ++
    it.unit_price.getD [])

def matchCount (query : Str) (it : Item) : ℕ :=
  ((tokenize query).filter (fun t => hasSub t (combinedText it))).length

def minRequired (query : Str) : ℕ := max 2 ((tokenize query).length / 2)

/-- integrate_scrapers.py `_is_relevant`. -/
def isRelevant (query : Str) (it : Item) : Bool :=
  if NEGATIVE_TERMS.any (fun neg => hasSub neg (combinedText it)) then false
  else decide (minRequired query ≤ matchCount query it)

/-- Stable insertion into a sorted list (ties keep the earlier element first). -/
def insB {α : Type} (le : α → α → Bool) (a : α) : List α → List α
  | [] => [a]
  | b :: bs => if le a b then a :: b :: bs else b :: insB le a bs

/-- Stable insertion sort: the model of Python's stable `list.sort(key=...)`
for a total preorder `le`. -/
def sortB {α : Type} (le : α → α → Bool) : List α → List α
  | [] => []
  | x :: xs => insB le x (sortB le xs)

/-- Ascending lexicographic comparison of `(ℕ, ℚ)` sort keys. -/
def pairLeB (a b : ℕ × ℚ) : Bool :=
  if a.1 < b.1 then true
  else if a.1 = b.1 then decide (a.2 ≤ b.2)
  else false

/-- Key `(x.get("price") is None, x.get("price", 0))`; the second component
is only compared between records that both have a price, so the default for
a missing price is immaterial. -/
def rankKey (it : Item) : ℕ × ℚ := (if it.price.isSome then 0 else 1, it.price.getD 0)

def rankLe (a b : Item) : Bool := pairLeB (rankKey a) (rankKey b)

/-- The enrichment comprehension of `_filter_and_rank`: records are
enriched left to right; the first record on which `_enrich_unit_prices`
raises aborts the whole comprehension (`none`). -/
def enrichAll : List Item → Option (List Enriched)
  | [] => some []
  | it :: rest =>
    match enrichUnitPrices it with
    | some e =>
      match enrichAll rest with
      | some es => some (e :: es)
      | none => none
    | none => none

/-- integrate_scrapers.py `_filter_and_rank`; `none` when enrichment of one
of the kept records raises. -/
def filterAndRank (query : Str) (items : List Item) (limit : ℕ) :
    Option (List Enriched) :=
  let filtered := items.filter (fun it => isRelevant query it)
  let sorted := sortB rankLe filtered
  enrichAll (sorted.take limit)

def PRODUCTS_TO_SEARCH : List Str :=
  ["Orange Juice", "Toilet Paper", "Lemons"].map (fun s => s.toList)

/-! ### Cheapest-option selection -/

structure StoreEntry where
  store : Str
  item : Enriched
deriving DecidableEq

inductive CompBasis where
  | unit_price
  | total_price
deriving DecidableEq

structure BestDeal where
  store : Str
  item : Enriched
  comparison_type : CompBasis
deriving DecidableEq

/-- The flattening loop of `_find_cheapest_option`: all items with a price,
labelled with their store, in store order then item order. -/
def allPriced (stores : List (Str × List Enriched)) : List StoreEntry :=
  stores.foldr (fun s acc =>
    ((s.2.filter (fun it => it.item.price.isSome)).map
      (fun it => StoreEntry.mk s.1 it)) ++ acc) []

/-- The normalized-unit-price subset: entries whose `unit_prices` list is
non-empty and whose first entry carries a `normalized_amount`. -/
def normCandidates (stores : List (Str × List Enriched)) : List (StoreEntry × ℚ) :=
  (allPriced stores).filterMap (fun e =>
    match e.item.unit_prices with
    | some (u :: _) =>
      match u.normalized_amount with
      | some q => some (e, q)
      | none => none
    | _ => none)

/-- Key `(not available, price)` for the total-price fallback sort. -/
def tKeyOf (e : StoreEntry) : ℕ × ℚ :=
  (if e.item.item.available then 0 else 1, e.item.item.price.getD 0)

def totalLe (a b : StoreEntry) : Bool := pairLeB (tKeyOf a) (tKeyOf b)

/-- Key `(not available, normalized_price)` for the unit-price sort. -/
def nKeyOf (x : StoreEntry × ℚ) : ℕ × ℚ :=
  (if x.1.item.item.available then 0 else 1, x.2)

def normLe (a b : StoreEntry × ℚ) : Bool := pairLeB (nKeyOf a) (nKeyOf b)

/-- integrate_scrapers.py `_find_cheapest_option`. -/
def findCheapestOption (stores : List (Str × List Enriched)) : Option BestDeal :=
  let all := allPriced stores
  if all.isEmpty then none
  else
    let wn := normCandidates stores
    if !wn.isEmpty then
      match sortB normLe wn with
      | [] => none -- unreachable: sortB preserves non-emptiness
      | x :: _ => some ⟨x.1.store, x.1.item, .unit_price⟩
    else
      match sortB totalLe all with
      | [] => none -- unreachable
      | e :: _ => some ⟨e.store, e.item, .total_price⟩

/-! ### Helper lemmas -/

theorem roundTiesEven_abs (x : ℚ) : |((roundTiesEven x : ℤ) : ℚ) - x| ≤ 1 / 2 := by
  have hf : ((⌊x⌋ : ℤ) : ℚ) ≤ x := Int.floor_le x
  have hc : x < ((⌊x⌋ : ℤ) : ℚ) + 1 := Int.lt_floor_add_one x
  unfold roundTiesEven
  split_ifs with h1 h2 h3 <;> rw [abs_le] <;> constructor <;> push_cast <;> linarith

theorem round4_abs (x : ℚ) : |round4 x - x| ≤ 1 / 20000 := by
  have h := roundTiesEven_abs (x * 10000)
  unfold round4
  have : (roundTiesEven (x * 10000) : ℚ) / 10000 - x =
      ((roundTiesEven (x * 10000) : ℚ) - x * 10000) / 10000 := by ring
  rw [this, abs_div]
  rw [show |(10000 : ℚ)| = 10000 by norm_num]
  linarith

theorem mem_insB {α : Type} {le : α → α → Bool} {a x : α} {l : List α} :
    x ∈ insB le a l ↔ x = a ∨ x ∈ l := by
  induction l with
  | nil => simp [insB]
  | cons b bs ih =>
    unfold insB
    split
    · simp [List.mem_cons]
    · simp only [List.mem_cons, ih]
      tauto

theorem insB_ne_nil {α : Type} {le : α → α → Bool} {a : α} {l : List α} :
    insB le a l ≠ [] := by
  cases l with
  | nil => simp [insB]
  | cons b bs => unfold insB; split <;> simp

theorem sortB_ne_nil {α : Type} {le : α → α → Bool} {l : List α} (h : l ≠ []) :
    sortB le l ≠ [] := by
  cases l with
  | nil => exact absurd rfl h
  | cons x xs => exact insB_ne_nil

theorem mem_sortB {α : Type} {le : α → α → Bool} {x : α} {l : List α} :
    x ∈ sortB le l ↔ x ∈ l := by
  induction l with
  | nil => simp [sortB]
  | cons b bs ih => simp [sortB, mem_insB, ih]

theorem pairwise_insB {α : Type} {le : α → α → Bool}
    (htot : ∀ a b, le a b = true ∨ le b a = true)
    (htrans : ∀ a b c, le a b = true → le b c = true → le a c = true)
    {a : α} {l : List α} (h : l.Pairwise (fun x y => le x y = true)) :
    (insB le a l).Pairwise (fun x y => le x y = true) := by
  induction l with
  | nil => simp [insB]
  | cons b bs ih =>
    rw [List.pairwise_cons] at h
    obtain ⟨hb, hbs⟩ := h
    by_cases hab : le a b = true
    · rw [insB, if_pos hab]
      refine List.Pairwise.cons ?_ (List.Pairwise.cons hb hbs)
      intro y hy
      rcases List.mem_cons.mp hy with rfl | hy
      · exact hab
      · exact htrans _ _ _ hab (hb y hy)
    · rw [insB, if_neg hab]
      refine List.Pairwise.cons ?_ (ih hbs)
      intro y hy
      rcases mem_insB.mp hy with h2 | hy
      · rw [h2]
        rcases htot a b with h1 | h1
        · exact absurd h1 hab
        · exact h1
      · exact hb y hy

theorem pairwise_sortB {α : Type} {le : α → α → Bool}
    (htot : ∀ a b, le a b = true ∨ le b a = true)
    (htrans : ∀ a b c, le a b = true → le b c = true → le a c = true)
    (l : List α) : (sortB le l).Pairwise (fun x y => le x y = true) := by
  induction l with
  | nil => simp [sortB]
  | cons b bs ih => exact pairwise_insB htot htrans ih

theorem sortB_head_le {α : Type} {le : α → α → Bool}
    (htot : ∀ a b, le a b = true ∨ le b a = true)
    (htrans : ∀ a b c, le a b = true → le b c = true → le a c = true)
    {l : List α} {x : α} {xs : List α} (h : sortB le l = x :: xs) :
    ∀ y ∈ l, le x y = true := by
  intro y hy
  have hmem : y ∈ x :: xs := h ▸ mem_sortB.mpr hy
  rcases List.mem_cons.mp hmem with hy2 | hy2
  · rw [hy2]
    rcases htot x x with hx | hx <;> exact hx
  · have hp := pairwise_sortB htot htrans l
    rw [h, List.pairwise_cons] at hp
    exact hp.1 y hy2

theorem pairLeB_total (a b : ℕ × ℚ) : pairLeB a b = true ∨ pairLeB b a = true := by
  unfold pairLeB
  rcases Nat.lt_trichotomy a.1 b.1 with h | h | h
  · left; simp [h]
  · have h2 : ¬ a.1 < b.1 := by omega
    have h3 : ¬ b.1 < a.1 := by omega
    rcases le_total a.2 b.2 with hq | hq
    · left; simp [h2, h, hq]
    · right; simp [h3, h.symm, hq]
  · right; simp [h]

theorem pairLeB_trans (a b c : ℕ × ℚ) (h1 : pairLeB a b = true)
    (h2 : pairLeB b c = true) : pairLeB a c = true := by
  unfold pairLeB at h1 h2 ⊢
  split_ifs at h1 h2 ⊢ <;> simp_all <;> first | omega | linarith

theorem takeWhile_app {p : Char → Bool} {xs : List Char} {y : Char}
    (h1 : ∀ c ∈ xs, p c = true) (h2 : p y = false) (ys : List Char) :
    (xs ++ y :: ys).takeWhile p = xs := by
  induction xs with
  | nil => simp [List.takeWhile_cons, h2]
  | cons x xt ih =>
    have hx : p x = true := h1 x (by simp)
    simp only [List.cons_append, List.takeWhile_cons, hx, if_true]
    rw [ih (fun c hc => h1 c (by simp [hc]))]

theorem lookupA_pos {l : List (Str × ℚ)} (hl : ∀ kv ∈ l, 0 < kv.2) {u : Str} {c : ℚ}
    (h : lookupA l u = some c) : 0 < c := by
  induction l with
  | nil => simp [lookupA] at h
  | cons hd tl ih =>
    obtain ⟨k2, v2⟩ := hd
    rw [lookupA] at h
    split at h
    · cases h
      exact hl (k2, c) (by simp)
    · exact ih (fun kv hkv => hl kv (by simp [hkv])) h

theorem lookupConv_pos {u : Str} {c : ℚ} (h : lookupConv u = some c) : 0 < c := by
  refine lookupA_pos ?_ h
  intro kv hkv
  unfold UNIT_CONVERSIONS at hkv
  fin_cases hkv <;> norm_num

/-! ### Claim theorems -/

/-- C4: `_is_relevant` keeps a record iff no negative term occurs in its
combined lower-cased text and the query-token match count reaches
`max(2, len(tokens) // 2)`; in particular any record whose text contains
"easter" is rejected regardless of token overlap. -/
theorem c4_relevance_filter_iff (q : Str) (it : Item) :
    (isRelevant q it = true ↔
      ((NEGATIVE_TERMS.any (fun neg => hasSub neg (combinedText it))) = false ∧
        minRequired q ≤ matchCount q it)) ∧
    (hasSub ("easter".toList) (combinedText it) = true → isRelevant q it = false) := by
  constructor
  · unfold isRelevant
    by_cases hneg : NEGATIVE_TERMS.any (fun neg => hasSub neg (combinedText it)) = true
    · simp [hneg]
    · rw [Bool.not_eq_true] at hneg
      simp [hneg]
  · intro he
    unfold isRelevant
    have hneg : NEGATIVE_TERMS.any (fun neg => hasSub neg (combinedText it)) = true := by
      refine List.any_eq_true.mpr ?_
      exact ⟨"easter".toList, by decide, he⟩
    simp [hneg]

def c4item : Item := ⟨some ("easter egg hunt chocolate eggs".toList), some 1, none, none, true⟩

theorem c4_relevance_filter_iff_witness :
    isRelevant ("chocolate eggs".toList) c4item = false :=
  (c4_relevance_filter_iff ("chocolate eggs".toList) c4item).2 (by decide)

/-- C5: a single-token query (such as the configured search term "Lemons")
needs `max(2, 1 // 2) = 2` matched query tokens, which is more than one
token can provide, so `_is_relevant` rejects every record and
`_filter_and_rank` always returns the empty list. -/
theorem c5_single_token_query_empty :
    (∀ q : Str, (tokenize q).length = 1 →
      minRequired q = 2 ∧ (∀ it : Item, isRelevant q it = false) ∧
        ∀ (items : List Item) (limit : ℕ), filterAndRank q items limit = some []) ∧
    ("Lemons".toList ∈ PRODUCTS_TO_SEARCH) := by
  constructor
  · intro q hq
    have hmin : minRequired q = 2 := by unfold minRequired; rw [hq]; rfl
    have hrel : ∀ it : Item, isRelevant q it = false := by
      intro it
      unfold isRelevant
      split
      · rfl
      · have hmc : matchCount q it ≤ 1 := by
          have h1 := List.length_filter_le (fun t => hasSub t (combinedText it)) (tokenize q)
          unfold matchCount
          omega
        rw [hmin]
        exact decide_eq_false (by omega)
    refine ⟨hmin, hrel, ?_⟩
    intro items limit
    unfold filterAndRank
    have hfil : items.filter (fun it => isRelevant q it) = [] := by
      induction items with
      | nil => rfl
      | cons a as ih => rw [List.filter_cons, hrel a]; simpa using ih
    simp [hfil, sortB, enrichAll]
  · decide

def c5item : Item := ⟨some ("lemons fresh 1ea".toList), some 1, none, none, true⟩

theorem c5_single_token_query_empty_witness :
    filterAndRank ("Lemons".toList) [c5item] 10 = some [] :=
  (c5_single_token_query_empty.1 ("Lemons".toList) (by decide)).2.2 [c5item] 10

/-- C9: in both polling loops the data marker wins over a blocking phrase:
a step with the marker present goes to extraction whatever the content, the
captcha-wait branch is taken exactly when a blocking phrase is present and
the marker is absent, and the bounded loop exits to extraction at the first
attempt whose page state carries the marker. -/
theorem c9_marker_wins_over_block :
    (∀ content : Str,
      pollStepW content true = .extract ∧ pollStepS content true = .extract) ∧
    (∀ (content : Str) (d : Bool),
      (pollStepW content d = .waitBlocked ↔ isBlockedW content = true ∧ d = false) ∧
      (pollStepS content d = .waitBlocked ↔ isBlockedS content = true ∧ d = false)) ∧
    (∀ (step : Str → Bool → PollAction) (trace : ℕ → Str × Bool) (fuel i : ℕ),
      (∀ c, step c true = PollAction.extract) → (trace i).2 = true →
      pollExit step trace (fuel + 1) i = some i) := by
  refine ⟨?_, ?_, ?_⟩
  · intro content
    constructor <;> simp [pollStepW, pollStepS]
  · intro content d
    constructor
    · unfold pollStepW
      cases d <;> cases hb : isBlockedW content <;> simp [hb]
    · unfold pollStepS
      cases d <;> cases hb : isBlockedS content <;> simp [hb]
  · intro step trace fuel i hstep hd
    unfold pollExit
    rw [hd, hstep]

def c9trace : ℕ → Str × Bool := fun _ => ("robot or human? press & hold".toList, true)

theorem c9_marker_wins_over_block_witness : pollExit pollStepW c9trace 120 0 = some 0 :=
  c9_marker_wins_over_block.2.2 pollStepW c9trace 119 0
    (fun c => (c9_marker_wins_over_block.1 c).1) rfl

/-- C7: for a positive parsed amount and a unit found directly in the
conversion table, the stored `normalized_amount` of `_calculate_unit_price`
satisfies `normalized × amount × conversionFactor = price` up to the
rounding of the stored amount to four decimal places. -/
theorem c7_unit_price_normalization_consistent
    (p a : ℚ) (unit : Str) (c : ℚ) (entry : UnitPriceEntry) (n : ℚ)
    (ha : 0 < a) (hc : lookupConv (lowerL unit) = some c)
    (hcalc : calculateUnitPrice (some p) (some (a, unit)) = some entry)
    (hn : entry.normalized_amount = some n) :
    |n * (a * c) - p| ≤ (a * c) / 20000 := by
  have hcpos : 0 < c := lookupConv_pos hc
  have hac : 0 < a * c := mul_pos ha hcpos
  by_cases hp : p = 0
  · simp [calculateUnitPrice, hp] at hcalc
  · simp only [calculateUnitPrice, hc] at hcalc
    rw [if_neg hp, if_neg (not_le.mpr ha), if_pos hac] at hcalc
    have hentry := (Option.some_injective _ hcalc).symm
    rw [hentry] at hn
    have hn2 : n = round4 (p / (a * c)) := by
      simpa using hn.symm
    have h1 : |round4 (p / (a * c)) - p / (a * c)| ≤ 1 / 20000 := round4_abs _
    have hy : (p / (a * c)) * (a * c) = p := div_mul_cancel₀ p (ne_of_gt hac)
    have h2 : n * (a * c) - p = (n - p / (a * c)) * (a * c) := by
      rw [sub_mul, hy]
    rw [h2, abs_mul, abs_of_pos hac, hn2]
    calc |round4 (p / (a * c)) - p / (a * c)| * (a * c)
        ≤ (1 / 20000) * (a * c) := mul_le_mul_of_nonneg_right h1 (le_of_lt hac)
      _ = (a * c) / 20000 := by ring

def c7entry : UnitPriceEntry :=
  ⟨2, some 1, "ml".toList, some 2, some ("ml".toList), some ("ml".toList)⟩

theorem c7_unit_price_normalization_consistent_witness :
    |(2 : ℚ) * (1 * 1) - 2| ≤ (1 * 1) / 20000 :=
  c7_unit_price_normalization_consistent 2 1 ("ml".toList) 1 c7entry 2 (by norm_num)
    (by rfl)
    (by simp +decide [calculateUnitPrice, lookupConv, UNIT_CONVERSIONS, lookupA,
          lowerL, round4, roundTiesEven, c7entry]
        norm_num)
    (by rfl)

/-- Membership in the normalized-comparison subset forces a non-empty
`unit_prices` list whose head carries a `normalized_amount`. -/
theorem normCandidates_mem {stores : List (Str × List Enriched)} {x : StoreEntry × ℚ}
    (hx : x ∈ normCandidates stores) :
    x.1 ∈ allPriced stores ∧
      ∃ u rest, x.1.item.unit_prices = some (u :: rest) ∧
        u.normalized_amount = some x.2 := by
  unfold normCandidates at hx
  rw [List.mem_filterMap] at hx
  obtain ⟨e, he, hf⟩ := hx
  cases hup : e.item.unit_prices with
  | none => simp [hup] at hf
  | some l =>
    cases l with
    | nil => simp [hup] at hf
    | cons u rest =>
      cases hn : u.normalized_amount with
      | none => simp [hup, hn] at hf
      | some q =>
        simp only [hup, hn, Option.some.injEq] at hf
        subst hf
        exact ⟨he, u, rest, hup, hn⟩

/-- C3: an explicit `$<amount>/<perAmount><unit>` string in the quantity
text is parsed by dividing amount by perAmount (when perAmount is
positive); it short-circuits quantity parsing, the conversion table and the
record's total price; and `"$0.86/100ml"` yields 0.0086 per "ml". -/
theorem c3_explicit_unit_price_parse_and_shortcircuit :
    (∀ (s : Str) (p a : ℚ) (u : Str), s ≠ [] → 0 < a →
      searchExplicit (lowerL s) = some (p, a, u) →
      extractExplicitUnitPrice (some s) = some (p / a, u)) ∧
    (∀ (it : Item) (p : ℚ) (u : Str),
      extractExplicitUnitPrice it.quantity = some (p, u) →
      enrichUnitPrices it =
        some ⟨it, some [⟨p, none, u, none, none, none⟩], some ⟨p, none, u⟩⟩ ∧
      ∀ pr : Option ℚ,
        enrichUnitPrices { it with price := pr } =
          some ⟨{ it with price := pr }, some [⟨p, none, u, none, none, none⟩],
            some ⟨p, none, u⟩⟩) ∧
    extractExplicitUnitPrice (some ("$0.86/100ml".toList)) =
      some (86 / 10000, "ml".toList) := by
  refine ⟨?_, ?_, ?_⟩
  · intro s p a u hs ha hsearch
    have h0 : s.isEmpty = false := by
      cases s with
      | nil => exact absurd rfl hs
      | cons c cs => rfl
    simp only [extractExplicitUnitPrice, h0, Bool.false_eq_true, if_false, hsearch]
    rw [if_pos ha]
  · intro it p u hx
    constructor
    · simp only [enrichUnitPrices, hx]
    · intro pr
      simp only [enrichUnitPrices]
      have hqe : ({ it with price := pr } : Item).quantity = it.quantity := rfl
      rw [hqe, hx]
  · simp +decide [extractExplicitUnitPrice, searchExplicit, matchExplicitAt, numTok,
      ratOfParts, natOfDigits, lowerL, trimWS, isUnitClassC]
    norm_num

def c3item : Item :=
  ⟨some ("Juice 1L".toList), some 5, none, some ("$0.86/100ml".toList), true⟩

theorem c3_explicit_unit_price_parse_and_shortcircuit_witness :
    (enrichUnitPrices c3item =
      some ⟨c3item, some [⟨86 / 10000, none, "ml".toList, none, none, none⟩],
        some ⟨86 / 10000, none, "ml".toList⟩⟩ ∧
     enrichUnitPrices { c3item with price := some 999 } =
      some ⟨{ c3item with price := some 999 },
        some [⟨86 / 10000, none, "ml".toList, none, none, none⟩],
        some ⟨86 / 10000, none, "ml".toList⟩⟩) ∧
    extractExplicitUnitPrice (some ("$1/2ml".toList)) = some (1 / 2, "ml".toList) := by
  constructor
  · have h := c3_explicit_unit_price_parse_and_shortcircuit.2.1 c3item (86 / 10000)
      ("ml".toList) c3_explicit_unit_price_parse_and_shortcircuit.2.2
    exact ⟨h.1, h.2 (some 999)⟩
  · exact c3_explicit_unit_price_parse_and_shortcircuit.1 ("$1/2ml".toList) 1 2
      ("ml".toList) (by decide) (by norm_num)
      (by simp +decide [searchExplicit, matchExplicitAt, numTok, ratOfParts,
            natOfDigits, lowerL, trimWS, isUnitClassC])

/-- C2: records enriched via the explicit unit-price path (and via the
unknown-unit count-based fallback) carry no `normalized_amount`; the
selector's normalized subset only contains records whose first unit-price
entry has one, so whenever that subset is non-empty the winner carries a
`normalized_amount` — an explicit-path record can then never be selected. -/
theorem c2_explicit_unit_price_excluded_from_normalized :
    (∀ (it : Item) (p : ℚ) (u : Str),
      extractExplicitUnitPrice it.quantity = some (p, u) →
      enrichUnitPrices it =
        some ⟨it, some [⟨p, none, u, none, none, none⟩], some ⟨p, none, u⟩⟩) ∧
    (∀ (p a : ℚ) (unit : Str) (e : UnitPriceEntry),
      lookupConv (lowerL unit) = none → fuzzyKey (lowerL unit) = none →
      calculateUnitPrice (some p) (some (a, unit)) = some e →
      e.normalized_amount = none) ∧
    (∀ (stores : List (Str × List Enriched)) (x : StoreEntry × ℚ),
      x ∈ normCandidates stores →
      ∃ u rest, x.1.item.unit_prices = some (u :: rest) ∧
        u.normalized_amount = some x.2) ∧
    (∀ (stores : List (Str × List Enriched)) (b : BestDeal),
      normCandidates stores ≠ [] → findCheapestOption stores = some b →
      ∃ u rest q, b.item.unit_prices = some (u :: rest) ∧
        u.normalized_amount = some q) := by
  refine ⟨?_, ?_, ?_, ?_⟩
  · intro it p u hx
    simp only [enrichUnitPrices, hx]
  · intro p a unit e hlook hfuzz hcalc
    by_cases hp : p = 0
    · simp [calculateUnitPrice, hp] at hcalc
    · by_cases haneg : a ≤ 0
      · simp [calculateUnitPrice, hp, haneg] at hcalc
      · simp only [calculateUnitPrice, hlook, hfuzz] at hcalc
        rw [if_neg hp, if_neg haneg] at hcalc
        injection hcalc with he
        rw [← he]
  · intro stores x hx
    exact (normCandidates_mem hx).2
  · intro stores b hwn hfind
    have hall : (allPriced stores).isEmpty = false := by
      cases hap : allPriced stores with
      | nil =>
        exfalso
        apply hwn
        unfold normCandidates
        rw [hap]
        rfl
      | cons e es => rfl
    simp only [findCheapestOption, hall, Bool.false_eq_true, if_false] at hfind
    have hwn2 : (!(normCandidates stores).isEmpty) = true := by
      cases hn : normCandidates stores with
      | nil => exact absurd hn hwn
      | cons y ys => rfl
    rw [if_pos hwn2] at hfind
    cases hsort : sortB normLe (normCandidates stores) with
    | nil => exact absurd hsort (sortB_ne_nil hwn)
    | cons x xs =>
      rw [hsort] at hfind
      simp only [Option.some.injEq] at hfind
      have hxmem : x ∈ normCandidates stores :=
        mem_sortB.mp (hsort ▸ List.mem_cons_self x xs)
      obtain ⟨u, rest, h1, h2⟩ := (normCandidates_mem hxmem).2
      refine ⟨u, rest, x.2, ?_, h2⟩
      rw [← hfind]
      exact h1

def c2itemQ : Item := ⟨none, none, none, some ("$1/2ml".toList), false⟩

def c2uEntry : UnitPriceEntry :=
  ⟨3 / 2, some 1, "xx".toList, none, none, some ("xx".toList)⟩

def c2nEntry : UnitPriceEntry :=
  ⟨2, some 1, "l".toList, some 1, some ("l".toList), some ("l".toList)⟩

def c2normE : Enriched :=
  ⟨⟨some ("n".toList), some 2, none, none, true⟩, some [c2nEntry], none⟩

def c2stores : List (Str × List Enriched) := [("w".toList, [c2normE])]

def c2best : BestDeal := ⟨"w".toList, c2normE, .unit_price⟩

theorem c2_explicit_unit_price_excluded_from_normalized_witness :
    enrichUnitPrices c2itemQ =
      some ⟨c2itemQ, some [⟨1 / 2, none, "ml".toList, none, none, none⟩],
        some ⟨1 / 2, none, "ml".toList⟩⟩ ∧
    c2uEntry.normalized_amount = none ∧
    (∃ u rest, (StoreEntry.mk ("w".toList) c2normE).item.unit_prices = some (u :: rest) ∧
      u.normalized_amount = some 1) ∧
    (∃ u rest q, c2best.item.unit_prices = some (u :: rest) ∧
      u.normalized_amount = some q) := by
  refine ⟨?_, ?_, ?_, ?_⟩
  · exact c2_explicit_unit_price_excluded_from_normalized.1 c2itemQ (1 / 2) ("ml".toList)
      (by simp +decide [c2itemQ, extractExplicitUnitPrice, searchExplicit,
            matchExplicitAt, numTok, ratOfParts, natOfDigits, lowerL, trimWS,
            isUnitClassC])
  · exact c2_explicit_unit_price_excluded_from_normalized.2.1 3 2 ("xx".toList) c2uEntry
      (by decide) (by decide)
      (by simp +decide [calculateUnitPrice, lookupConv, UNIT_CONVERSIONS, lookupA,
            lowerL, fuzzyKey, hasSub, hasLead, round4, roundTiesEven, c2uEntry]
          norm_num)
  · exact c2_explicit_unit_price_excluded_from_normalized.2.2.1 c2stores
      (StoreEntry.mk ("w".toList) c2normE, 1) (by decide)
  · exact c2_explicit_unit_price_excluded_from_normalized.2.2.2 c2stores c2best
      (by decide) (by decide)

def c6itemA : Item := ⟨some ("a".toList), some 3, none, none, false⟩

def c6itemB : Item := ⟨some ("b".toList), some (7 / 2), none, none, true⟩

def c6itemAE : Enriched := ⟨c6itemA, none, none⟩

def c6itemBE : Enriched := ⟨c6itemB, none, none⟩

def c6stores : List (Str × List Enriched) :=
  [("A".toList, [c6itemAE]), ("B".toList, [c6itemBE])]

/-- C6: with no normalized unit price among the candidates, the winner is
the priced record minimal for the `(not available, price)` ordering, tagged
with the total-price basis; in the two-store example, available B at 3.50
beats unavailable A at 3.00. -/
theorem c6_total_price_fallback_prefers_available :
    (∀ (stores : List (Str × List Enriched)) (b : BestDeal),
      normCandidates stores = [] → findCheapestOption stores = some b →
      b.comparison_type = .total_price ∧
      ∃ e ∈ allPriced stores, b.store = e.store ∧ b.item = e.item ∧
        ∀ e2 ∈ allPriced stores, totalLe e e2 = true) ∧
    findCheapestOption c6stores = some ⟨"B".toList, c6itemBE, .total_price⟩ := by
  constructor
  · intro stores b hn hfind
    simp only [findCheapestOption] at hfind
    split at hfind
    · cases hfind
    · rw [hn] at hfind
      simp only [List.isEmpty_nil, Bool.not_true, Bool.false_eq_true, if_false] at hfind
      cases hsort : sortB totalLe (allPriced stores) with
      | nil => rw [hsort] at hfind; cases hfind
      | cons e rest =>
        rw [hsort] at hfind
        simp only [Option.some.injEq] at hfind
        have hmem : e ∈ allPriced stores :=
          mem_sortB.mp (hsort ▸ List.mem_cons_self e rest)
        have htot : ∀ x y : StoreEntry, totalLe x y = true ∨ totalLe y x = true :=
          fun x y => pairLeB_total _ _
        have htrans : ∀ x y z : StoreEntry,
            totalLe x y = true → totalLe y z = true → totalLe x z = true :=
          fun x y z h1 h2 => pairLeB_trans _ _ _ h1 h2
        have hmin := sortB_head_le htot htrans hsort
        rw [← hfind]
        exact ⟨rfl, e, hmem, rfl, rfl, hmin⟩
  · simp +decide [findCheapestOption, allPriced, normCandidates, c6stores,
      c6itemA, c6itemB, c6itemAE, c6itemBE, sortB, insB, totalLe, pairLeB, tKeyOf]

def c6winner : BestDeal := ⟨"B".toList, c6itemBE, .total_price⟩

theorem c6_total_price_fallback_prefers_available_witness :
    c6winner.comparison_type = .total_price ∧
    ∃ e ∈ allPriced c6stores, c6winner.store = e.store ∧ c6winner.item = e.item ∧
      ∀ e2 ∈ allPriced c6stores, totalLe e e2 = true :=
  c6_total_price_fallback_prefers_available.1 c6stores c6winner (by decide)
    c6_total_price_fallback_prefers_available.2

/-- Is the `availabilityStatus` string in the claim's three-word
out-of-stock vocabulary (`OUT_OF_STOCK`, `SOLD_OUT`, `UNAVAILABLE`)? -/
def wStatusNeg3 (item : JObj) : Bool :=
  match wStatusStr item with
  | some s => decide (upperL s ∈ sNegStatusVocab)
  | none => false

/-- C1 (amended to the Walmart extractor): a record whose availability
evidence is only negative — the explicit out-of-stock flag, or a status
string from the out-of-stock vocabulary — and that triggers none of the
positive rules (purchasability flags, in-stock status, stock flags,
inventory counts, offers/fulfillment, in-stock free text) is classified
unavailable by `_extract_availability`, even when price data is present. -/
theorem c1_walmart_negative_only_unavailable (item : JObj)
    (hneg : wOutFlagSet item = true ∨ wStatusNeg3 item = true)
    (h2 : wAtcFlags item = false) (h3 : wStatusPos item = false)
    (h4 : wStockFlags item = false) (h5 : wInvPos item = false)
    (h6 : wOffersPos item = false) (h7 : wFulfilPos item = false)
    (h8 : wMsgPos item = false) :
    wExtractAvailability item = false := by
  cases hflag : wOutFlagSet item with
  | true => simp [wExtractAvailability, hflag]
  | false =>
    have hsneg : wStatusNeg item = true := by
      rcases hneg with h | h
      · rw [hflag] at h; cases h
      · unfold wStatusNeg3 at h
        unfold wStatusNeg
        cases hs : wStatusStr item with
        | none => rw [hs] at h; cases h
        | some s =>
          rw [hs] at h
          simp only [decide_eq_true_eq] at h ⊢
          simp only [sNegStatusVocab, List.map, List.mem_cons, List.not_mem_nil,
            or_false] at h
          simp only [wOutVocab, List.map, List.mem_cons, List.not_mem_nil, or_false]
          tauto
    simp [wExtractAvailability, hflag, h2, h3, h4, h5, h6, h7, h8, hsneg]

def c1wItem : JObj :=
  [("availabilityStatus".toList, .jstr ("SOLD_OUT".toList)),
   ("price".toList, .jnum 5)]

theorem c1_walmart_negative_only_unavailable_witness :
    wExtractAvailability c1wItem = false :=
  c1_walmart_negative_only_unavailable c1wItem (Or.inr (by decide)) (by decide)
    (by decide) (by decide) (by decide) (by decide) (by decide) (by decide)

def c1ssItem : JObj :=
  [("availabilityStatus".toList, .jstr ("UNAVAILABLE".toList)),
   ("price".toList, .jnum 5)]

/-- C1 counterexample: the Superstore extractor `_is_available` classifies a
record whose only availability evidence is the negative status string
`UNAVAILABLE` (with a price present and no positive flag) as available,
because its in-stock keyword check matches the substring "available" inside
"unavailable" — the claim as stated demands unavailable here. -/
theorem c1_superstore_unavailable_status_counterexample :
    sStatusNeg c1ssItem = true ∧ sPosFlags c1ssItem = false ∧
    sIsAvailable c1ssItem = true := by decide

/-- C8 counterexample: "roll" is absent from both quantity regexes and "ct"
from Walmart's, so the names "Bounty 12 roll" (both scrapers) and
"eggs 6 ct" (Walmart) yield no quantity, where the claim promises "12 roll"
and "6 ct". -/
theorem c8_roll_ct_missing_counterexample :
    wExtractQuantity [("name".toList, .jstr ("Bounty 12 roll".toList))] = none ∧
    sExtractQuantity [("name".toList, .jstr ("Bounty 12 roll".toList))] = none ∧
    wExtractQuantity [("name".toList, .jstr ("eggs 6 ct".toList))] = none := by decide

theorem ciLead_self (s : Str) : ciLead s s = true := by
  induction s with
  | nil => rfl
  | cons c cs ih => simp [ciLead, ih]

theorem searchQty_of_matchAt {alts : List Str} {c : Char} {cs : Str}
    (h : (matchQtyAt alts (c :: cs)).isSome = true) :
    (searchQty alts (c :: cs)).isSome = true := by
  unfold searchQty
  cases hm : matchQtyAt alts (c :: cs) with
  | some r => simp
  | none => rw [hm] at h; cases h

/-- The quantity pattern matches at a position holding a digit run, one
space, and then a unit with some alternative as case-insensitive prefix. -/
theorem matchQtyAt_digits_space (alts : List Str) (d0 : Char) (ds unit : Str)
    (hd0 : isDigitC d0 = true) (hds : ∀ c ∈ ds, isDigitC c = true)
    (hune : unit ≠ [])
    (hu : ∀ u0 ∈ unit.take 1, isDigitC u0 = false ∧ isWSC u0 = false)
    (hfind : (alts.find? (fun a => ciLead a unit)).isSome = true) :
    (matchQtyAt alts ((d0 :: ds) ++ ' ' :: unit)).isSome = true := by
  obtain ⟨u0, us, rfl⟩ : ∃ u0 us, unit = u0 :: us := by
    cases unit with
    | nil => exact absurd rfl hune
    | cons a b => exact ⟨a, b, rfl⟩
  obtain ⟨hu1, hu2⟩ := hu u0 (by simp)
  have hall : ∀ c ∈ d0 :: ds, isDigitC c = true := by
    intro c hc
    rcases List.mem_cons.mp hc with h | h
    · rw [h]; exact hd0
    · exact hds c h
  have htw : ((d0 :: ds) ++ ' ' :: u0 :: us).takeWhile isDigitC = d0 :: ds :=
    takeWhile_app hall (by decide) _
  have hdr : ((d0 :: ds) ++ ' ' :: u0 :: us).drop (d0 :: ds).length = ' ' :: u0 :: us :=
    List.drop_left _ _
  simp only [matchQtyAt]
  rw [htw, hdr]
  have hw : (' ' :: u0 :: us).takeWhile isWSC = [' '] := by
    simp +decide [List.takeWhile_cons, hu2]
  rw [hw]
  simp only [List.isEmpty_cons, Bool.false_eq_true, if_false, List.length_cons,
    List.length_singleton, List.drop_succ_cons, List.drop_zero]
  simp only [List.length_nil, List.drop_zero]
  obtain ⟨a, ha⟩ := Option.isSome_iff_exists.mp hfind
  rw [ha]
  rfl

/-- C8 (amended): the name-fallback unit vocabulary is L, ML, g, kg, oz,
lb, pack, count, piece — plus ct for the Superstore scraper only, and with
"roll" in neither — and for every unit actually in a scraper's vocabulary,
a name of the shape `<digits> <unit>` (with no candidate quantity field
set) yields a quantity string rather than `None`.  (An earlier alternative
may truncate the match, e.g. "3 lb" yields "3 l" via the `L` alternative.) -/
theorem c8_quantity_regex_vocabulary :
    (∀ unit ∈ sQtyAlts, ∀ (d0 : Char) (ds : Str), isDigitC d0 = true →
      (∀ c ∈ ds, isDigitC c = true) →
      (sExtractQuantity
        [("name".toList, .jstr ((d0 :: ds) ++ ' ' :: unit))]).isSome = true) ∧
    (∀ unit ∈ wQtyAlts, ∀ (d0 : Char) (ds : Str), isDigitC d0 = true →
      (∀ c ∈ ds, isDigitC c = true) →
      (wExtractQuantity
        [("name".toList, .jstr ((d0 :: ds) ++ ' ' :: unit))]).isSome = true) := by
  constructor
  · intro unit hmem d0 ds hd0 hds
    have hia : unit ≠ [] ∧ ∀ u0 ∈ unit.take 1, isDigitC u0 = false ∧ isWSC u0 = false := by
      fin_cases hmem <;> exact ⟨by decide, by decide⟩
    have hfind : (sQtyAlts.find? (fun a => ciLead a unit)).isSome = true :=
      List.find?_isSome.mpr ⟨unit, hmem, ciLead_self unit⟩
    have hmq := matchQtyAt_digits_space sQtyAlts d0 ds unit hd0 hds hia.1 hia.2 hfind
    rw [List.cons_append] at hmq
    have hsq := searchQty_of_matchAt hmq
    have hq : qtyFromFields
        [("name".toList, .jstr ((d0 :: ds) ++ ' ' :: unit))] = none := by
      simp +decide [qtyFromFields, qtyFieldKeys, List.findSome?, qtyFieldVal, jGet,
        lookupA]
    simp +decide [sExtractQuantity, hq, jGet, lookupA, pyOr, pyTruthy,
      List.cons_append]
    exact hsq
  · intro unit hmem d0 ds hd0 hds
    have hia : unit ≠ [] ∧ ∀ u0 ∈ unit.take 1, isDigitC u0 = false ∧ isWSC u0 = false := by
      fin_cases hmem <;> exact ⟨by decide, by decide⟩
    have hfind : (wQtyAlts.find? (fun a => ciLead a unit)).isSome = true :=
      List.find?_isSome.mpr ⟨unit, hmem, ciLead_self unit⟩
    have hmq := matchQtyAt_digits_space wQtyAlts d0 ds unit hd0 hds hia.1 hia.2 hfind
    rw [List.cons_append] at hmq
    have hsq := searchQty_of_matchAt hmq
    have hq : qtyFromFields
        [("name".toList, .jstr ((d0 :: ds) ++ ' ' :: unit))] = none := by
      simp +decide [qtyFromFields, qtyFieldKeys, List.findSome?, qtyFieldVal, jGet,
        lookupA]
    simp +decide [wExtractQuantity, hq, jGet, lookupA, pyOr, pyTruthy,
      List.cons_append]
    exact hsq

theorem c8_quantity_regex_vocabulary_witness :
    (sExtractQuantity
      [("name".toList, .jstr (('6' :: []) ++ ' ' :: ("ct".toList)))]).isSome = true ∧
    (wExtractQuantity
      [("name".toList, .jstr (('3' :: []) ++ ' ' :: ("lb".toList)))]).isSome = true :=
  ⟨c8_quantity_regex_vocabulary.1 ("ct".toList) (by decide) '6' [] (by decide)
      (by simp),
   c8_quantity_regex_vocabulary.2 ("lb".toList) (by decide) '3' [] (by decide)
      (by simp)⟩
